import Mathlib

/-!
Verification of the multi-worker lead-generation scraping pipeline.

The definitions below are a shallow embedding of the pipeline's core:

* `src/generation/leads/run_pipeline.py` — ZIP partitioning across workers
  and the Stage-1 merge of per-ZIP outputs into the canonical dataset;
* `src/public/data/generation/leads/google_search/children/googlemaps_search.py`
  — the scraper worker: per-listing extraction, in-run name dedup,
  per-ZIP output files, the progress tracker and its resume logic;
* `src/generation/leads/google_search/children/google_filter.py` — the
  Stage-1 "named, no website" filter;
* `src/public/data/generation/leads/BBB/bbb_bus_parallel.py` — the Stage-2
  directory-lookup worker (first non-ad result card policy);
* `src/public/data/generation/leads/BBB/filtering_for_bbb.py` — the final
  lead-list filter and merge, deduplicated by directory URL.

Browser/DOM mechanics are external collaborators in the source design; a
page is modelled as the list of listing records it yields, each record as
the optional field values its markup provides.
-/

/-! ## Character-level string helpers

Python's `str` comparison, `str.endswith` and `str.strip` are modelled on
the underlying character sequence (code-point order), which matches
Python's semantics for these operations. -/

/-- Code-point lexicographic order on character lists (Python `str` order). -/
def charListLe : List Char → List Char → Bool
  | [], _ => true
  | _ :: _, [] => false
  | a :: as, b :: bs =>
    if a.toNat < b.toNat then true
    else if b.toNat < a.toNat then false
    else charListLe as bs

/-- Python `a <= b` on strings. -/
def strLe (a b : String) : Bool := charListLe a.data b.data

/-- Python `name.endswith(suffix)`. -/
def str_ends_with (name suffix : String) : Bool :=
  suffix.data.isSuffixOf name.data

/-- Python `s.strip()`: remove leading and trailing whitespace. -/
def pyStrip (s : String) : String :=
  ⟨((s.data.dropWhile Char.isWhitespace).reverse.dropWhile Char.isWhitespace).reverse⟩

/-! ## ZipPartitioner (`run_pipeline.py`, `main`, lines 43–60)

`workers = 10` in the source; the worker count is kept as a parameter and
claims are proved for any positive count. ZIP codes are natural numbers. -/

/-- `in_ga` from `run_pipeline.py`: GA-valid ZIP bands. -/
def in_ga (zip_code : Nat) : Bool :=
  (30000 ≤ zip_code && zip_code ≤ 31999) || (39800 ≤ zip_code && zip_code ≤ 39999)

/-- `candidate_zips` from `run_pipeline.py`: the inclusive request range,
restricted to GA-valid bands when the (upper-cased) state is `"GA"`. -/
def candidate_zips (state : String) (start_zip end_zip : Nat) : List Nat :=
  if state = "GA" then
    (List.range' start_zip (end_zip + 1 - start_zip)).filter in_ga
  else
    List.range' start_zip (end_zip + 1 - start_zip)

/-- `per_worker = max(1, (len(candidate_zips) + workers - 1) // workers)`. -/
def per_worker (count workers : Nat) : Nat :=
  max 1 ((count + workers - 1) / workers)

/-- The slicing `[candidate_zips[i:i+per_worker] for i in range(0, len, per_worker)]`,
written as structural recursion with the list length as fuel (the slice
width is always positive in the source, so the fuel suffices). -/
def sliceChunks (k : Nat) : Nat → List Nat → List (List Nat)
  | 0, _ => []
  | _, [] => []
  | fuel + 1, xs => xs.take k :: sliceChunks k fuel (xs.drop k)

/-- `zip_slices` from `run_pipeline.py`. -/
def zip_slices (candidates : List Nat) (workers : Nat) : List (List Nat) :=
  sliceChunks (per_worker candidates.length workers) candidates.length candidates

/-- The partitions actually dispatched: `zip_slices[:workers]`. -/
def dispatched_partitions (state : String) (start_zip end_zip workers : Nat) :
    List (List Nat) :=
  (zip_slices (candidate_zips state start_zip end_zip) workers).take workers

/-! ## BusinessRecord model

A scraped record is a JSON object. The pipeline reads the keys below via
`item.get(...)` (absent key ↦ `none`); `extra` carries any further keys so
that two records may differ outside the consulted fields. -/

/-- One Stage-1 record (the `data` dict built in `scrape_google_maps_listings`,
plus the `Industry`/`Location` tags added in `main`). -/
structure Item where
  businessName : Option String := none
  rating : Option String := none
  numberOfReviews : Option String := none
  category : Option String := none
  address : Option String := none
  phone : Option String := none
  close : Option String := none
  website : Option String := none
  googleReviewsLink : Option String := none
  industry : Option String := none
  location : Option String := none
  extra : List (String × String) := []
deriving DecidableEq

/-- `(item.get('BusinessName'), item.get('Location'))`, the Stage-1 dedup key. -/
def mergeKey (it : Item) : Option String × Option String :=
  (it.businessName, it.location)

/-! ## Stage-1 merge (`run_pipeline.py`, `main`, lines 89–127)

The merge walks the existing canonical list, then each `.json` file of the
by-zip directory in sorted filename order, keeping a record whenever its
`(BusinessName, Location)` key has not been seen. -/

/-- One pass of the merge loop over a list of records, threading the
`seen` key set and the `merged` accumulator exactly as the source does. -/
def mergeInto (seen : List (Option String × Option String)) (merged : List Item) :
    List Item → List (Option String × Option String) × List Item
  | [] => (seen, merged)
  | it :: rest =>
    if mergeKey it ∈ seen then mergeInto seen merged rest
    else mergeInto (mergeKey it :: seen) (merged ++ [it]) rest

/-- Stable insertion of a named file into a name-sorted prefix
(used to model Python's stable `sorted(os.listdir(...))`). -/
def insertByName (x : String × List Item) :
    List (String × List Item) → List (String × List Item)
  | [] => [x]
  | y :: ys => if strLe y.1 x.1 then y :: insertByName x ys else x :: y :: ys

/-- `sorted(os.listdir(by_zip_dir))`: the directory entries in code-point
lexicographic filename order (stable). -/
def sortedDirListing (files : List (String × List Item)) :
    List (String × List Item) :=
  files.foldl (fun acc x => insertByName x acc) []

/-- The merge of `run_pipeline.py`: existing canonical entries first, then
every `.json` file of the by-zip directory in sorted filename order. -/
def merge_google_by_zip (existing : List Item)
    (files : List (String × List Item)) : List Item :=
  (((sortedDirListing files).filter
      (fun p => str_ends_with p.1 ".json")).foldl
    (fun st p => mergeInto st.1 st.2 p.2) (mergeInto [] [] existing)).2

/-- All entries of the directory's `.json` files, files in sorted filename
order, entries in original file order. -/
def json_entries (files : List (String × List Item)) : List Item :=
  (((sortedDirListing files).filter
      (fun p => str_ends_with p.1 ".json")).map Prod.snd).flatten

/-- The merge's encounter sequence: existing canonical entries, then the
`.json` files in sorted filename order, entries in original file order. -/
def encounterSeq (existing : List Item) (files : List (String × List Item)) :
    List Item :=
  existing ++ json_entries files

/-- Modelled from the spec: keep only the first-encountered record of each
`(businessName, location)` identity, in encounter order. -/
def firstSeen : List Item → List Item
  | [] => []
  | x :: xs =>
    x :: firstSeen (xs.filter (fun y => decide (mergeKey y ≠ mergeKey x)))
termination_by l => l.length
decreasing_by
  exact Nat.lt_succ_of_le (List.length_filter_le _ _)

/-- `firstSeen` relative to an already-seen key set. -/
def firstSeenFrom (seen : List (Option String × Option String)) :
    List Item → List Item
  | [] => []
  | x :: xs =>
    if mergeKey x ∈ seen then firstSeenFrom seen xs
    else x :: firstSeenFrom (mergeKey x :: seen) xs

/-! ## ScraperWorker (`googlemaps_search.py`)

A listing's markup is modelled by the optional field texts its tags yield
(`scrape_google_maps_listings`, lines 167–243); a page by the listing divs
of its results feed, `none` when the feed/search never loads (the function
then returns the empty list, lines 100–162). -/

/-- One direct child div of the results feed: the field texts its tags
would yield to the extractor (absent tag ↦ `none`). -/
structure ListingDiv where
  nameText : Option String := none
  ratingText : Option String := none
  reviewsText : Option String := none
  websiteHref : Option String := none
  reviewsHref : Option String := none
  categoryText : Option String := none
  addressText : Option String := none
  phoneText : Option String := none
  closeText : Option String := none
deriving DecidableEq

/-- The `data` dict built for one listing div: every field defaults to
`"N/A"` and is overwritten when the corresponding tag is present. -/
def listingData (d : ListingDiv) : Item :=
  { businessName := some (d.nameText.getD "N/A")
    rating := some (d.ratingText.getD "N/A")
    numberOfReviews := some (d.reviewsText.getD "N/A")
    website := some (d.websiteHref.getD "N/A")
    googleReviewsLink := some (d.reviewsHref.getD "N/A")
    category := some (d.categoryText.getD "N/A")
    address := some (d.addressText.getD "N/A")
    phone := some (d.phoneText.getD "N/A")
    close := some (d.closeText.getD "N/A") }

/-- The per-listing body of the scrape loop: skip when the extracted name
was already seen; emit only when the final `BusinessName` is not `"N/A"`. -/
def processListing (seen : List String) (d : ListingDiv) : Option Item :=
  match d.nameText with
  | some n =>
    if n ∈ seen then none
    else if n ≠ "N/A" then some (listingData d) else none
  | none => none

/-- The name under which an emitted record is registered in the
seen-name set (`scraped_business_names.add(data["BusinessName"])`). -/
def itemName (it : Item) : String := it.businessName.getD "N/A"

/-- The listing loop of `scrape_google_maps_listings` (lines 167–243):
stop at `max_listings`, thread the seen-name set, collect survivors. -/
def scrapeLoop (max_listings : Nat) :
    List ListingDiv → List Item → List String → List Item × List String
  | [], acc, seen => (acc, seen)
  | d :: ds, acc, seen =>
    if max_listings ≤ acc.length then (acc, seen)
    else
      match processListing seen d with
      | none => scrapeLoop max_listings ds acc seen
      | some it => scrapeLoop max_listings ds (acc ++ [it]) (itemName it :: seen)

/-- `scrape_google_maps_listings`: an unloadable page yields no records;
otherwise the listing loop runs over the feed's child divs. -/
def scrape_google_maps_listings (page : Option (List ListingDiv))
    (max_listings : Nat) (scraped_business_names : List String) :
    List Item × List String :=
  match page with
  | none => ([], scraped_business_names)
  | some divs => scrapeLoop max_listings divs [] scraped_business_names

/-! ## Stage-1 filter (`google_filter.py`, lines 26–29) -/

/-- `filter_google_search_data`: keep entries with a name and no website. -/
def filter_google_search_data (data : List Item) : List Item :=
  data.filter (fun entry =>
    decide (entry.businessName ≠ some "N/A") && decide (entry.website = some "N/A"))

/-! ## By-zip output directory (`googlemaps_search.py`, lines 259–281, 414–434)

The by-zip directory maps a ZIP code (the file name stem) to the record
list its file holds. -/

/-- Content of the ZIP's file in the by-zip directory (`[]` when absent). -/
def storeGet : List (Nat × List Item) → Nat → List Item
  | [], _ => []
  | p :: ps, zip_code => if p.1 = zip_code then p.2 else storeGet ps zip_code

/-- Write the ZIP's file (replace its first directory entry, or create it). -/
def storeSet : List (Nat × List Item) → Nat → List Item → List (Nat × List Item)
  | [], zip_code, v => [(zip_code, v)]
  | p :: ps, zip_code, v =>
    if p.1 = zip_code then (zip_code, v) :: ps else p :: storeSet ps zip_code v

/-- `get_all_business_names_from_by_zip`: every truthy `BusinessName` found
in any file of the by-zip directory. -/
def get_all_business_names_from_by_zip (store : List (Nat × List Item)) :
    List String :=
  ((store.map Prod.snd).flatten).filterMap (fun it =>
    match it.businessName with
    | some s => if s = "" then none else some s
    | none => none)

/-- Tag a surviving listing before saving (`biz["Industry"]`, `biz["Location"]`). -/
def tagListing (zip_code : Nat) (biz : Item) : Item :=
  { biz with industry := some "Roofing", location := some (toString zip_code) }

/-- `new_items` of the by-zip save step: the listings whose `BusinessName`
is not among the `names_seen` of the ZIP's existing file. -/
def new_zip_items (store : List (Nat × List Item)) (zip_code : Nat)
    (listings : List Item) : List Item :=
  listings.filter (fun it =>
    decide (it.businessName ∉ (storeGet store zip_code).map
      (fun it2 => it2.businessName)))

/-- The by-zip save step (lines 414–434): read the ZIP's existing file,
drop listings whose `BusinessName` is already in it, and rewrite the file
(existing entries first, new items appended) only when something new
remains. Returns the updated directory and the appended items. -/
def write_zip_file (store : List (Nat × List Item)) (zip_code : Nat)
    (listings : List Item) : List (Nat × List Item) × List Item :=
  if new_zip_items store zip_code listings = [] then (store, [])
  else
    (storeSet store zip_code
        (storeGet store zip_code ++ new_zip_items store zip_code listings),
      new_zip_items store zip_code listings)

/-! ## ProgressTracker and the worker run (`googlemaps_search.py`, `main`)

The tracker entry for the requested state is its `last_zip_scraped` value:
`none` for `"N/A"`/absent, `some w` for a stored number `w`. Note the
source guards the watermark with Python truthiness (`if last_scraped_zip
and ...`), so the stored number `0` behaves like an absent watermark. -/

/-- `actual_start_zip` (lines 334–346). -/
def effective_start (start_zip : Nat) (last_zip_scraped : Option Nat) : Nat :=
  match last_zip_scraped with
  | none => start_zip
  | some w =>
    if w ≠ 0 then (if start_zip ≤ w then w + 1 else start_zip) else start_zip

/-- `get_valid_zip_ranges_for_state` (lines 283–288). -/
def get_valid_zip_ranges_for_state (state_abbr : String) :
    Option (List (Nat × Nat)) :=
  if state_abbr = "GA" then some [(30000, 31999), (39800, 39999)] else none

/-- The skip test of the per-zip loop (line 396): a ZIP outside every valid
sub-range is skipped; with no restriction (or an empty, hence falsy, range
list) every ZIP passes. -/
def zipIsValid (valid_ranges : Option (List (Nat × Nat))) (zip_code : Nat) : Bool :=
  match valid_ranges with
  | none => true
  | some rs =>
    if rs.isEmpty then true else rs.any (fun p => p.1 ≤ zip_code && zip_code ≤ p.2)

/-- Observable outcome of the per-zip loop. -/
structure ZipLoopResult where
  processed : List Nat
  seen : List String
  store : List (Nat × List Item)
  writes : List (Nat × List Item)
deriving DecidableEq

/-- The per-zip loop of `main` (lines 394–460) in by-zip output mode: skip
state-invalid ZIPs, scrape each remaining ZIP threading the seen-name set,
tag survivors, and save them to the ZIP's file; `writes` records each
performed file write as the ZIP and its appended items. -/
def zipLoop (valid_ranges : Option (List (Nat × Nat)))
    (pages : Nat → Option (List ListingDiv)) :
    List Nat → List String → List (Nat × List Item) → ZipLoopResult
  | [], seen, store => ⟨[], seen, store, []⟩
  | z :: zs, seen, store =>
    if zipIsValid valid_ranges z then
      let r := scrape_google_maps_listings (pages z) 100 seen
      if r.1 = [] then
        let rest := zipLoop valid_ranges pages zs r.2 store
        ⟨z :: rest.processed, rest.seen, rest.store, rest.writes⟩
      else
        let w := write_zip_file store z (r.1.map (tagListing z))
        let rest := zipLoop valid_ranges pages zs r.2 w.1
        ⟨z :: rest.processed, rest.seen, rest.store,
          if w.2 = [] then rest.writes else (z, w.2) :: rest.writes⟩
    else
      zipLoop valid_ranges pages zs seen store

/-- All records appended to by-zip files during a run. -/
def emittedItems (writes : List (Nat × List Item)) : List Item :=
  (writes.map Prod.snd).flatten

/-- Where a run's single uncaught exception (if any) strikes: before the
scraping loop starts (e.g. WebDriver construction, line 361, which is
outside the `try`), or while handling the i-th iterated ZIP (caught by the
`except` handler at line 462, so the function still returns normally). -/
inductive RunFault where
  | ok : RunFault
  | beforeLoop : RunFault
  | atIndex : Nat → RunFault
deriving DecidableEq

/-- Observable outcome of one worker invocation of `main`. -/
structure RunResult where
  exitOk : Bool
  processed : List Nat
  tracker : Option Nat
  trackerWritten : Bool
  store : List (Nat × List Item)
  writes : List (Nat × List Item)
deriving DecidableEq

/-- `actual_start_zip` of the run: the tracker adjustment applies only when
the tracker is not bypassed. -/
def run_actual_start (start_zip : Nat) (bypass_tracker : Bool)
    (tracker0 : Option Nat) : Nat :=
  if bypass_tracker then start_zip else effective_start start_zip tracker0

/-- `iterable_zips` (line 393): the explicit `GGL_ZIP_LIST` when given,
otherwise `range(actual_start_zip, end_zip + 1)`. -/
def run_iterable (actual_start end_zip : Nat)
    (explicit_zips : Option (List Nat)) : List Nat :=
  match explicit_zips with
  | some zs => zs
  | none => List.range' actual_start (end_zip + 1 - actual_start)

/-- The ZIPs the loop actually iterates: a loop-time exception cuts the
iteration at the faulting element; the handler catches it. -/
def run_cut (fault : RunFault) (iterable : List Nat) : List Nat :=
  match fault with
  | RunFault.atIndex i => iterable.take i
  | _ => iterable

/-- `highest_processed_zip`: initialised to `actual_start_zip - 1` (a Python
int, hence `Int` here) and set to each processed ZIP in turn. -/
def run_highest (actual_start : Nat) (processed : List Nat) : Int :=
  match processed.getLast? with
  | some z => (z : Int)
  | none => (actual_start : Int) - 1

/-- The `finally` block (lines 466–490): advance the tracker only when the
tracker is not bypassed and at least one ZIP at or past the effective start
was processed. -/
def run_finish (bypass_tracker : Bool) (tracker0 : Option Nat)
    (actual_start : Nat) (r : ZipLoopResult) : RunResult :=
  if ¬ bypass_tracker ∧ (actual_start : Int) ≤ run_highest actual_start r.processed then
    ⟨true, r.processed, some (run_highest actual_start r.processed).toNat, true,
      r.store, r.writes⟩
  else
    ⟨true, r.processed, tracker0, false, r.store, r.writes⟩

/-- `main` of `googlemaps_search.py` in by-zip output mode: resolve the
effective start from the tracker (unless bypassed), succeed as a no-op when
it exceeds the end ZIP, fail with a non-zero exit when an uncaught
exception strikes before the loop, and otherwise run the per-zip loop over
the explicit ZIP list (`GGL_ZIP_LIST`) or the effective range and finish
through the `finally` block. -/
def runScraper (state_abbr : String) (start_zip end_zip : Nat)
    (bypass_tracker : Bool) (tracker0 : Option Nat)
    (explicit_zips : Option (List Nat))
    (pages : Nat → Option (List ListingDiv))
    (store0 : List (Nat × List Item)) (fault : RunFault) : RunResult :=
  if end_zip < run_actual_start start_zip bypass_tracker tracker0 then
    ⟨true, [], tracker0, false, store0, []⟩
  else
    match fault with
    | RunFault.beforeLoop => ⟨false, [], tracker0, false, store0, []⟩
    | f =>
      run_finish bypass_tracker tracker0
        (run_actual_start start_zip bypass_tracker tracker0)
        (zipLoop (get_valid_zip_ranges_for_state state_abbr) pages
          (run_cut f (run_iterable
            (run_actual_start start_zip bypass_tracker tracker0) end_zip
            explicit_zips))
          (get_all_business_names_from_by_zip store0) store0)

/-! ## Stage 2: BBB directory matching (`bbb_bus_parallel.py`)

A search-result child div is modelled by the class tests of the XPath
filter and the field values its tags would yield; a record of this stage is
a Stage-1 record extended with the four `BBB_*` keys. -/

/-- One child div of the BBB result stack: its class memberships and the
texts the extractor would read (`none` where a lookup would raise). -/
structure BBBCard where
  adSlotClass : Bool := false
  cardClass : Bool := true
  resultCardClass : Bool := true
  nameAndUrl : Option (String × String) := none
  phoneText : Option String := none
  addressText : Option String := none
deriving DecidableEq

/-- The four collected-field lists of `scrape_bbb_listings`. -/
structure Collected where
  bus : List String := []
  url : List String := []
  phone : List String := []
  addr : List String := []
deriving DecidableEq

/-- The non-ad test of the XPath
`./div[not(contains(@class,'ad-slot')) and contains(@class,'card') and contains(@class,'result-card')]`. -/
def isNonAdCard (c : BBBCard) : Bool :=
  !c.adSlotClass && c.cardClass && c.resultCardClass

/-- `scrape_bbb_listings` (lines 81–177): when the page loads, extract the
first non-ad result card only; a failed page load, zero non-ad cards, or a
failed extraction from that card all yield empty lists. -/
def scrape_bbb_listings (page_loaded : Bool) (cards : List BBBCard) : Collected :=
  if page_loaded then
    match cards.filter isNonAdCard with
    | [] => {}
    | c :: _ =>
      match c.nameAndUrl with
      | none => {}
      | some nu =>
        { bus := [nu.1], url := [nu.2]
          phone := [c.phoneText.getD "N/A"], addr := [c.addressText.getD "N/A"] }
  else {}

/-- A Stage-2 record: a Stage-1 record dict extended in place with the
`BBB_*` keys (absent before the worker sets them). -/
structure BbbEntry where
  businessName : Option String := none
  location : Option String := none
  website : Option String := none
  bbbBus : Option String := none
  bbbUrl : Option String := none
  bbbPhone : Option String := none
  bbbAddr : Option String := none
  extra : List (String × String) := []
deriving DecidableEq

/-- Python truthiness of an optional string value. -/
def truthyOpt : Option String → Bool
  | none => false
  | some s => s ≠ ""

/-- The per-candidate body of `worker` (lines 224–258): skip entries with a
blank name or location; otherwise set the four `BBB_*` fields from the
lookup — joined with `"; "` when a card was extracted (a single card here),
all `"N/A"` otherwise (including the recreate-session failure path, which
uses empty lists). Returns `none` when the entry is skipped unemitted. -/
def bbb_worker_results (session_failed : Bool) (page_loaded : Bool)
    (cards : List BBBCard) : Collected :=
  if session_failed then ({} : Collected)
  else scrape_bbb_listings page_loaded cards

def bbb_worker_entry (entry : BbbEntry) (session_failed : Bool)
    (page_loaded : Bool) (cards : List BBBCard) : Option BbbEntry :=
  if pyStrip (entry.businessName.getD "") = ""
      || pyStrip (entry.location.getD "") = "" then none
  else if (bbb_worker_results session_failed page_loaded cards).bus ≠ [] then
    some { entry with
      bbbBus := some (String.intercalate "; "
        (bbb_worker_results session_failed page_loaded cards).bus)
      bbbUrl := some (String.intercalate "; "
        (bbb_worker_results session_failed page_loaded cards).url)
      bbbPhone := some (String.intercalate "; "
        (bbb_worker_results session_failed page_loaded cards).phone)
      bbbAddr := some (String.intercalate "; "
        (bbb_worker_results session_failed page_loaded cards).addr) }
  else
    some { entry with
      bbbBus := some "N/A", bbbUrl := some "N/A"
      bbbPhone := some "N/A", bbbAddr := some "N/A" }

/-! ## Final lead filter (`filtering_for_bbb.py`, lines 28–63) -/

/-- `filtered_new`: keep entries whose `BBB_url` is truthy and not the
sentinel. -/
def filtered_new (data : List BbbEntry) : List BbbEntry :=
  data.filter (fun entry =>
    truthyOpt entry.bbbUrl && decide (entry.bbbUrl ≠ some "N/A"))

/-- One of the two accumulation loops over entries: keep an entry whose
`BBB_url` is truthy and unseen, registering the URL string. -/
def urlSeedLoop : List String × List BbbEntry → List BbbEntry →
    List String × List BbbEntry
  | st, [] => st
  | (seen_urls, merged), entry :: rest =>
    if truthyOpt entry.bbbUrl && decide (entry.bbbUrl.getD "" ∉ seen_urls) then
      urlSeedLoop (entry.bbbUrl.getD "" :: seen_urls, merged ++ [entry]) rest
    else
      urlSeedLoop (seen_urls, merged) rest

/-- `filter_for_final_leads`: filter the new data by matched `BBB_url`,
then merge — existing final entries seeded first, new filtered entries
after, deduplicated by `BBB_url` with first occurrence kept. -/
def filter_for_final_leads (data existing_final : List BbbEntry) :
    List BbbEntry :=
  (urlSeedLoop (urlSeedLoop ([], []) existing_final) (filtered_new data)).2

/-! ### Partitioner lemmas -/

theorem sliceChunks_flatten (k : Nat) (hk : 1 ≤ k) :
    ∀ (fuel : Nat) (xs : List Nat), xs.length ≤ fuel →
      (sliceChunks k fuel xs).flatten = xs := by
  intro fuel
  induction fuel with
  | zero =>
    intro xs hxs
    have : xs = [] := List.eq_nil_of_length_eq_zero (Nat.le_zero.mp hxs)
    subst this
    rfl
  | succ n ih =>
    intro xs hxs
    match xs with
    | [] => rfl
    | x :: rest =>
      have hlen : (List.drop k (x :: rest)).length ≤ n := by
        rw [List.length_drop]
        have : (x :: rest).length = rest.length + 1 := rfl
        omega
      calc (sliceChunks k (n + 1) (x :: rest)).flatten
          = (x :: rest).take k ++ (sliceChunks k n ((x :: rest).drop k)).flatten := rfl
        _ = (x :: rest).take k ++ (x :: rest).drop k := by rw [ih _ hlen]
        _ = x :: rest := List.take_append_drop k (x :: rest)

theorem sliceChunks_ne_nil (k : Nat) (hk : 1 ≤ k) :
    ∀ (fuel : Nat) (xs : List Nat), ∀ c ∈ sliceChunks k fuel xs, c ≠ [] := by
  intro fuel
  induction fuel with
  | zero => intro xs c hc; simp [sliceChunks] at hc
  | succ n ih =>
    intro xs c hc
    match xs with
    | [] => simp [sliceChunks] at hc
    | x :: rest =>
      simp only [sliceChunks, List.mem_cons] at hc
      rcases hc with h | h
      · subst h
        intro hcontra
        have : k = 0 := by
          by_contra hk0
          have : (List.take k (x :: rest)) = x :: List.take (k - 1) rest := by
            cases k with
            | zero => omega
            | succ m => simp [List.take]
          rw [this] at hcontra
          exact List.cons_ne_nil _ _ hcontra
        omega
      · exact ih _ c h

theorem sliceChunks_length_le (k : Nat) (hk : 1 ≤ k) :
    ∀ (w : Nat) (fuel : Nat) (xs : List Nat), xs.length ≤ k * w →
      (sliceChunks k fuel xs).length ≤ w := by
  intro w
  induction w with
  | zero =>
    intro fuel xs hxs
    have hx : xs = [] := by simpa using hxs
    subst hx
    cases fuel <;> simp [sliceChunks]
  | succ m ih =>
    intro fuel xs hxs
    cases fuel with
    | zero => simp [sliceChunks]
    | succ n =>
      match xs with
      | [] => simp [sliceChunks]
      | x :: rest =>
        have hdrop : ((x :: rest).drop k).length ≤ k * m := by
          rw [List.length_drop]
          have hlen : (x :: rest).length ≤ k * (m + 1) := hxs
          have : k * (m + 1) = k * m + k := by ring
          omega
        have := ih n ((x :: rest).drop k) hdrop
        simpa [sliceChunks] using this

theorem candidate_zips_sorted (state : String) (start_zip end_zip : Nat) :
    List.Pairwise (· < ·) (candidate_zips state start_zip end_zip) := by
  unfold candidate_zips
  split
  · exact List.Pairwise.filter _ (List.pairwise_lt_range' _ _)
  · exact List.pairwise_lt_range' _ _

theorem zip_slices_count_le (candidates : List Nat) (workers : Nat)
    (hw : 1 ≤ workers) : (zip_slices candidates workers).length ≤ workers := by
  unfold zip_slices
  set n := candidates.length with hn
  set k := per_worker n workers with hkdef
  have hk1 : 1 ≤ k := le_max_left _ _
  apply sliceChunks_length_le k hk1 workers n candidates
  rw [← hn]
  have hceil : n ≤ workers * ((n + workers - 1) / workers) := by
    have hmod := Nat.div_add_mod (n + workers - 1) workers
    have hlt : (n + workers - 1) % workers < workers := Nat.mod_lt _ (by omega)
    omega
  have hkk : (n + workers - 1) / workers ≤ k := le_max_right _ _
  calc n ≤ workers * ((n + workers - 1) / workers) := hceil
    _ ≤ workers * k := Nat.mul_le_mul_left _ hkk
    _ = k * workers := Nat.mul_comm _ _

/-- C1: For every valid request with a non-empty filtered candidate set and a
positive worker count, the dispatched partitions are non-empty, their
concatenation is exactly the filtered candidate set (the `[:workers]`
truncation drops nothing), the candidate set is strictly ascending (so the
contiguous chunks appear in ascending order), and the partitioning is a pure
function of its inputs (re-running yields identical subsets). -/
theorem partition_complete (state : String) (start_zip end_zip workers : Nat)
    (hw : 1 ≤ workers) (hne : candidate_zips state start_zip end_zip ≠ []) :
    (dispatched_partitions state start_zip end_zip workers).flatten
        = candidate_zips state start_zip end_zip ∧
      (∀ p ∈ dispatched_partitions state start_zip end_zip workers, p ≠ []) ∧
      List.Pairwise (· < ·) (candidate_zips state start_zip end_zip) ∧
      dispatched_partitions state start_zip end_zip workers
        = dispatched_partitions state start_zip end_zip workers := by
  set c := candidate_zips state start_zip end_zip with hc
  have hk1 : 1 ≤ per_worker c.length workers := le_max_left _ _
  have htake : (zip_slices c workers).take workers = zip_slices c workers :=
    List.take_of_length_le (zip_slices_count_le c workers hw)
  refine ⟨?_, ?_, ?_, rfl⟩
  · unfold dispatched_partitions
    rw [← hc, htake]
    exact sliceChunks_flatten _ hk1 _ _ (le_refl _)
  · intro p hp
    unfold dispatched_partitions at hp
    rw [← hc, htake] at hp
    exact sliceChunks_ne_nil _ hk1 _ _ p hp
  · exact candidate_zips_sorted state start_zip end_zip

/-- Witness for `partition_complete`: Scenario A of the spec (candidates
30301–30303, two of ten workers used). -/
theorem partition_complete_witness :
    (1 ≤ 10 ∧ candidate_zips "GA" 30301 30303 ≠ []) ∧
      (dispatched_partitions "GA" 30301 30303 10).flatten
        = candidate_zips "GA" 30301 30303 := by
  refine ⟨⟨by decide, by decide⟩, ?_⟩
  exact (partition_complete "GA" 30301 30303 10 (by decide) (by decide)).1

/-! ### Merge lemmas -/

theorem mergeInto_append (seen : List (Option String × Option String))
    (merged : List Item) (xs ys : List Item) :
    mergeInto seen merged (xs ++ ys)
      = mergeInto (mergeInto seen merged xs).1 (mergeInto seen merged xs).2 ys := by
  induction xs generalizing seen merged with
  | nil => rfl
  | cons x rest ih =>
    simp only [List.cons_append, mergeInto]
    split <;> exact ih _ _

theorem mergeInto_eq_firstSeenFrom (seen : List (Option String × Option String))
    (merged : List Item) (items : List Item) :
    (mergeInto seen merged items).2 = merged ++ firstSeenFrom seen items := by
  induction items generalizing seen merged with
  | nil => simp [mergeInto, firstSeenFrom]
  | cons x rest ih =>
    simp only [mergeInto, firstSeenFrom]
    split
    · exact ih _ _
    · rw [ih _ _, List.append_assoc]
      rfl

theorem firstSeenFrom_eq_firstSeen_filter (items : List Item) :
    ∀ seen, firstSeenFrom seen items
      = firstSeen (items.filter (fun y => decide (mergeKey y ∉ seen))) := by
  induction items with
  | nil => intro seen; simp [firstSeenFrom, firstSeen]
  | cons x xs ih =>
    intro seen
    by_cases hx : mergeKey x ∈ seen
    · rw [firstSeenFrom, if_pos hx, List.filter_cons_of_neg (by simpa using hx)]
      exact ih seen
    · rw [firstSeenFrom, if_neg hx, List.filter_cons_of_pos (by simpa using hx)]
      rw [firstSeen, ih (mergeKey x :: seen), List.filter_filter]
      congr 2
      apply List.filter_congr
      intro y _
      by_cases h1 : mergeKey y = mergeKey x
      · simp [h1]
      · by_cases h2 : mergeKey y ∈ seen <;> simp [h1, h2]

theorem foldl_mergeInto_flatten
    (fs : List (String × List Item)) :
    ∀ (st : List (Option String × Option String) × List Item),
      fs.foldl (fun st p => mergeInto st.1 st.2 p.2) st
        = mergeInto st.1 st.2 (fs.map Prod.snd).flatten := by
  induction fs with
  | nil => intro st; rfl
  | cons f rest ih =>
    intro st
    calc (f :: rest).foldl (fun st p => mergeInto st.1 st.2 p.2) st
        = rest.foldl (fun st p => mergeInto st.1 st.2 p.2) (mergeInto st.1 st.2 f.2) := rfl
      _ = mergeInto (mergeInto st.1 st.2 f.2).1 (mergeInto st.1 st.2 f.2).2
            (rest.map Prod.snd).flatten := ih _
      _ = mergeInto st.1 st.2 (f.2 ++ (rest.map Prod.snd).flatten) :=
          (mergeInto_append _ _ _ _).symm
      _ = mergeInto st.1 st.2 ((f :: rest).map Prod.snd).flatten := rfl

theorem merge_google_by_zip_eq_firstSeen (existing : List Item)
    (files : List (String × List Item)) :
    merge_google_by_zip existing files = firstSeen (encounterSeq existing files) := by
  unfold merge_google_by_zip encounterSeq json_entries
  rw [foldl_mergeInto_flatten]
  rw [← mergeInto_append]
  rw [mergeInto_eq_firstSeenFrom]
  rw [firstSeenFrom_eq_firstSeen_filter]
  simp only [List.nil_append]
  congr 1
  apply List.filter_eq_self.mpr
  intro a _
  simp

theorem firstSeen_sublist (l : List Item) : (firstSeen l).Sublist l := by
  induction l using firstSeen.induct with
  | case1 => simp [firstSeen]
  | case2 x xs ih =>
    rw [firstSeen]
    exact List.Sublist.cons₂ x (ih.trans (List.filter_sublist xs))

theorem firstSeen_pairwise (l : List Item) :
    List.Pairwise (fun a b => mergeKey a ≠ mergeKey b) (firstSeen l) := by
  induction l using firstSeen.induct with
  | case1 => simp [firstSeen]
  | case2 x xs ih =>
    rw [firstSeen]
    refine List.Pairwise.cons ?_ ih
    intro b hb
    have hmem := (firstSeen_sublist _).subset hb
    have := List.of_mem_filter hmem
    intro hcontra
    simp [hcontra] at this

theorem firstSeen_covers (l : List Item) :
    ∀ a ∈ l, ∃ b ∈ firstSeen l, mergeKey b = mergeKey a := by
  induction l using firstSeen.induct with
  | case1 => intro a ha; simp at ha
  | case2 x xs ih =>
    intro a ha
    rw [firstSeen]
    rcases List.mem_cons.mp ha with h | h
    · exact ⟨x, List.mem_cons_self _ _, by rw [h]⟩
    · by_cases hk : mergeKey a = mergeKey x
      · exact ⟨x, List.mem_cons_self _ _, hk.symm⟩
      · have hmem : a ∈ xs.filter (fun y => decide (mergeKey y ≠ mergeKey x)) :=
          List.mem_filter.mpr ⟨h, by simpa using hk⟩
        obtain ⟨b, hb, hbk⟩ := ih a hmem
        exact ⟨b, List.mem_cons_of_mem _ hb, hbk⟩

theorem firstSeen_fixpoint (M : List Item) :
    ∀ F : List Item,
      List.Pairwise (fun a b => mergeKey a ≠ mergeKey b) M →
      (∀ a ∈ F, ∃ b ∈ M, mergeKey b = mergeKey a) →
      firstSeen (M ++ F) = M := by
  induction M with
  | nil =>
    intro F _ hcov
    have : F = [] := by
      cases F with
      | nil => rfl
      | cons a _ =>
        obtain ⟨b, hb, _⟩ := hcov a (List.mem_cons_self _ _)
        simp at hb
    subst this
    simp [firstSeen]
  | cons m M ih =>
    intro F hpw hcov
    rw [List.cons_append, firstSeen, List.filter_append]
    have hMfix : M.filter (fun y => decide (mergeKey y ≠ mergeKey m)) = M := by
      apply List.filter_eq_self.mpr
      intro a ha
      have := (List.pairwise_cons.mp hpw).1 a ha
      simpa using fun h => this h.symm
    rw [hMfix]
    congr 1
    apply ih
    · exact (List.pairwise_cons.mp hpw).2
    · intro a ha
      have haF : a ∈ F := (List.mem_filter.mp ha).1
      have hane : mergeKey a ≠ mergeKey m := by
        have := (List.mem_filter.mp ha).2
        simpa using this
      obtain ⟨b, hb, hbk⟩ := hcov a haF
      rcases List.mem_cons.mp hb with h | h
      · exact absurd (h ▸ hbk) (fun hh => hane hh.symm)
      · exact ⟨b, h, hbk⟩

/-- C2: The Stage-1 merge keeps, for every `(BusinessName, Location)`
identity, exactly the first-encountered record, where the encounter order is
the existing canonical entries, then the by-zip `.json` files in sorted
filename order, entries within each file in original order; the merged
output is exactly the first-seen subsequence of that encounter sequence, so
no two surviving records share an identity and their relative order is the
encounter order. -/
theorem merge_first_seen_order (existing : List Item)
    (files : List (String × List Item)) :
    merge_google_by_zip existing files = firstSeen (encounterSeq existing files) ∧
      List.Sublist (merge_google_by_zip existing files)
        (encounterSeq existing files) ∧
      List.Pairwise (fun a b => mergeKey a ≠ mergeKey b)
        (merge_google_by_zip existing files) := by
  refine ⟨merge_google_by_zip_eq_firstSeen existing files, ?_, ?_⟩
  · rw [merge_google_by_zip_eq_firstSeen]
    exact firstSeen_sublist _
  · rw [merge_google_by_zip_eq_firstSeen]
    exact firstSeen_pairwise _

/-- C3: The Stage-1 merge is idempotent: merging the same per-partition
files a second time, into the canonical dataset already produced by merging
them once, returns that dataset unchanged (no duplicate growth, no
reordering). -/
theorem merge_idempotent (existing : List Item)
    (files : List (String × List Item)) :
    merge_google_by_zip (merge_google_by_zip existing files) files
      = merge_google_by_zip existing files := by
  rw [merge_google_by_zip_eq_firstSeen existing files,
    merge_google_by_zip_eq_firstSeen (firstSeen (encounterSeq existing files)) files]
  unfold encounterSeq
  apply firstSeen_fixpoint
  · exact firstSeen_pairwise _
  · intro a ha
    exact firstSeen_covers _ a (List.mem_append_right existing ha)

/-! ### Scraper emission lemmas -/

theorem processListing_no_sentinel (seen : List String) (d : ListingDiv)
    (it : Item) (h : processListing seen d = some it) :
    it.businessName ≠ some "N/A" ∧
      ∃ n, d.nameText = some n ∧ it.businessName = some n ∧ n ∉ seen := by
  rcases hd : d.nameText with _ | n
  · simp [processListing, hd] at h
  · simp only [processListing, hd] at h
    split_ifs at h with h1 h2
    · have hbn : it.businessName = some n := by
        rw [← Option.some.inj h]
        simp [listingData, hd]
      exact ⟨by rw [hbn]; simpa using h2, n, by simp [hd], hbn, h1⟩

theorem scrapeLoop_spec (maxL : Nat) (divs : List ListingDiv) :
    ∀ (acc : List Item) (seen : List String),
      ∃ new : List Item,
        scrapeLoop maxL divs acc seen
          = (acc ++ new, (new.map itemName).reverse ++ seen) ∧
        List.Pairwise (· ≠ ·) (new.map itemName) ∧
        (∀ n ∈ new.map itemName, n ∉ seen) ∧
        (∀ it ∈ new, it.businessName = some (itemName it) ∧ itemName it ≠ "N/A") := by
  induction divs with
  | nil =>
    intro acc seen
    exact ⟨[], by simp [scrapeLoop], by simp, by simp, by simp⟩
  | cons d ds ih =>
    intro acc seen
    by_cases hcap : maxL ≤ acc.length
    · exact ⟨[], by simp [scrapeLoop, hcap], by simp, by simp, by simp⟩
    · match hp : processListing seen d with
      | none =>
        obtain ⟨new, heq, hpw, hns, hok⟩ := ih acc seen
        exact ⟨new, by simp only [scrapeLoop, if_neg hcap, hp]; exact heq, hpw, hns, hok⟩
      | some it =>
        obtain ⟨hna, n, hdn, hbn, hnseen⟩ := processListing_no_sentinel seen d it hp
        have hnm : itemName it = n := by simp [itemName, hbn]
        obtain ⟨new, heq, hpw, hns, hok⟩ := ih (acc ++ [it]) (itemName it :: seen)
        refine ⟨it :: new, ?_, ?_, ?_, ?_⟩
        · simp only [scrapeLoop, if_neg hcap, hp]
          rw [heq]
          congr 1
          · rw [List.append_assoc]
            rfl
          · simp
        · refine List.Pairwise.cons ?_ hpw
          intro m hm hc
          exact (hns m hm) (List.mem_cons.mpr (Or.inl hc.symm))
        · intro m hm
          rw [List.map_cons, List.mem_cons] at hm
          rcases hm with h | h
          · rw [h, hnm]; exact hnseen
          · exact fun hc => (hns m h) (List.mem_cons_of_mem _ hc)
        · intro x hx
          rcases List.mem_cons.mp hx with h | h
          · subst h
            exact ⟨by rw [hnm, hbn], by rw [hnm]; exact fun hc => (hc ▸ hna) hbn⟩
          · exact hok x h

theorem scrape_spec (page : Option (List ListingDiv)) (maxL : Nat)
    (seen : List String) :
    ∃ new : List Item,
      scrape_google_maps_listings page maxL seen
          = (new, (new.map itemName).reverse ++ seen) ∧
        List.Pairwise (· ≠ ·) (new.map itemName) ∧
        (∀ n ∈ new.map itemName, n ∉ seen) ∧
        (∀ it ∈ new, it.businessName = some (itemName it) ∧ itemName it ≠ "N/A") := by
  match page with
  | none => exact ⟨[], by simp [scrape_google_maps_listings], by simp, by simp, by simp⟩
  | some divs =>
    obtain ⟨new, heq, hpw, hns, hok⟩ := scrapeLoop_spec maxL divs [] seen
    exact ⟨new, by simpa [scrape_google_maps_listings] using heq, hpw, hns, hok⟩

theorem tagListing_businessName (zip_code : Nat) (biz : Item) :
    (tagListing zip_code biz).businessName = biz.businessName := rfl

theorem tagListing_itemName (zip_code : Nat) (biz : Item) :
    itemName (tagListing zip_code biz) = itemName biz := rfl

theorem storeGet_storeSet_self (store : List (Nat × List Item)) (z : Nat)
    (v : List Item) : storeGet (storeSet store z v) z = v := by
  induction store with
  | nil => simp [storeSet, storeGet]
  | cons p ps ih =>
    by_cases h : p.1 = z
    · simp [storeSet, h, storeGet]
    · simp [storeSet, h, storeGet, ih]

theorem storeGet_storeSet_other (store : List (Nat × List Item)) (z z' : Nat)
    (v : List Item) (hne : z' ≠ z) :
    storeGet (storeSet store z v) z' = storeGet store z' := by
  have hzz : z ≠ z' := fun hh => hne hh.symm
  induction store with
  | nil => simp [storeSet, storeGet, hzz]
  | cons p ps ih =>
    by_cases h : p.1 = z
    · have hp : p.1 ≠ z' := by rw [h]; exact hzz
      rw [storeSet, if_pos h]
      simp only [storeGet]
      rw [if_neg hzz, if_neg hp]
    · rw [storeSet, if_neg h, storeGet, storeGet]
      by_cases h2 : p.1 = z'
      · rw [if_pos h2, if_pos h2]
      · rw [if_neg h2, if_neg h2]
        exact ih

theorem write_zip_file_get (store : List (Nat × List Item)) (z : Nat)
    (listings : List Item) :
    ∀ z', storeGet (write_zip_file store z listings).1 z'
      = storeGet store z'
        ++ (if z' = z then (write_zip_file store z listings).2 else []) := by
  intro z'
  unfold write_zip_file
  by_cases hempty : new_zip_items store z listings = []
  · simp [hempty]
  · simp only [if_neg hempty]
    by_cases hz : z' = z
    · subst hz
      simp [storeGet_storeSet_self]
    · simp [storeGet_storeSet_other _ _ _ _ hz, hz]

theorem zipLoop_processed (valid_ranges : Option (List (Nat × Nat)))
    (pages : Nat → Option (List ListingDiv)) :
    ∀ (zs : List Nat) (seen : List String) (store : List (Nat × List Item)),
      (zipLoop valid_ranges pages zs seen store).processed
        = zs.filter (fun z => zipIsValid valid_ranges z) := by
  intro zs
  induction zs with
  | nil => intro seen store; rfl
  | cons z zs ih =>
    intro seen store
    by_cases hv : zipIsValid valid_ranges z
    · simp only [zipLoop, if_pos hv]
      by_cases hr : (scrape_google_maps_listings (pages z) 100 seen).1 = []
      · simp [hr, List.filter_cons, hv, ih]
      · simp [hr, List.filter_cons, hv, ih]
    · simp only [zipLoop, if_neg hv]
      simp [List.filter_cons, hv, ih]

theorem zipLoop_store_prefix (valid_ranges : Option (List (Nat × Nat)))
    (pages : Nat → Option (List ListingDiv)) :
    ∀ (zs : List Nat) (seen : List String) (store : List (Nat × List Item))
      (z' : Nat),
      ∃ t, storeGet (zipLoop valid_ranges pages zs seen store).store z'
        = storeGet store z' ++ t := by
  intro zs
  induction zs with
  | nil => intro seen store z'; exact ⟨[], by simp [zipLoop]⟩
  | cons z zs ih =>
    intro seen store z'
    by_cases hv : zipIsValid valid_ranges z
    · simp only [zipLoop, if_pos hv]
      by_cases hr : (scrape_google_maps_listings (pages z) 100 seen).1 = []
      · simp only [hr, if_pos rfl]
        exact ih _ _ z'
      · simp only [if_neg hr]
        obtain ⟨t1, ht1⟩ := ih ((scrape_google_maps_listings (pages z) 100 seen).2)
          (write_zip_file store z
            ((scrape_google_maps_listings (pages z) 100 seen).1.map (tagListing z))).1 z'
        refine ⟨(if z' = z then (write_zip_file store z
            ((scrape_google_maps_listings (pages z) 100 seen).1.map (tagListing z))).2
          else []) ++ t1, ?_⟩
        rw [ht1, write_zip_file_get, List.append_assoc]
    · simp only [zipLoop, if_neg hv]
      exact ih _ _ z'

theorem write_zip_file_snd_sub (store : List (Nat × List Item)) (z : Nat)
    (listings : List Item) :
    (write_zip_file store z listings).2.Sublist listings := by
  unfold write_zip_file
  split
  · simp
  · exact List.filter_sublist listings

theorem zipLoop_cons_invalid (valid_ranges : Option (List (Nat × Nat)))
    (pages : Nat → Option (List ListingDiv)) (z : Nat) (zs : List Nat)
    (seen : List String) (store : List (Nat × List Item))
    (hv : ¬ zipIsValid valid_ranges z) :
    zipLoop valid_ranges pages (z :: zs) seen store
      = zipLoop valid_ranges pages zs seen store := by
  simp only [zipLoop, if_neg hv]

theorem zipLoop_cons_nil (valid_ranges : Option (List (Nat × Nat)))
    (pages : Nat → Option (List ListingDiv)) (z : Nat) (zs : List Nat)
    (seen : List String) (store : List (Nat × List Item))
    (hv : zipIsValid valid_ranges z)
    (hr : (scrape_google_maps_listings (pages z) 100 seen).1 = []) :
    zipLoop valid_ranges pages (z :: zs) seen store
      = { zipLoop valid_ranges pages zs
            (scrape_google_maps_listings (pages z) 100 seen).2 store with
          processed := z :: (zipLoop valid_ranges pages zs
            (scrape_google_maps_listings (pages z) 100 seen).2 store).processed } := by
  simp [zipLoop, hv, hr]

theorem zipLoop_cons_write (valid_ranges : Option (List (Nat × Nat)))
    (pages : Nat → Option (List ListingDiv)) (z : Nat) (zs : List Nat)
    (seen : List String) (store : List (Nat × List Item))
    (hv : zipIsValid valid_ranges z)
    (hr : (scrape_google_maps_listings (pages z) 100 seen).1 ≠ []) :
    zipLoop valid_ranges pages (z :: zs) seen store
      = { zipLoop valid_ranges pages zs
            (scrape_google_maps_listings (pages z) 100 seen).2
            (write_zip_file store z
              ((scrape_google_maps_listings (pages z) 100 seen).1.map
                (tagListing z))).1 with
          processed := z :: (zipLoop valid_ranges pages zs
            (scrape_google_maps_listings (pages z) 100 seen).2
            (write_zip_file store z
              ((scrape_google_maps_listings (pages z) 100 seen).1.map
                (tagListing z))).1).processed
          writes :=
            if (write_zip_file store z
                ((scrape_google_maps_listings (pages z) 100 seen).1.map
                  (tagListing z))).2 = [] then
              (zipLoop valid_ranges pages zs
                (scrape_google_maps_listings (pages z) 100 seen).2
                (write_zip_file store z
                  ((scrape_google_maps_listings (pages z) 100 seen).1.map
                    (tagListing z))).1).writes
            else
              (z, (write_zip_file store z
                ((scrape_google_maps_listings (pages z) 100 seen).1.map
                  (tagListing z))).2) :: (zipLoop valid_ranges pages zs
                (scrape_google_maps_listings (pages z) 100 seen).2
                (write_zip_file store z
                  ((scrape_google_maps_listings (pages z) 100 seen).1.map
                    (tagListing z))).1).writes } := by
  simp only [zipLoop, if_pos hv, if_neg hr]

theorem zipLoop_cons_write_seen (valid_ranges : Option (List (Nat × Nat)))
    (pages : Nat → Option (List ListingDiv)) (z : Nat) (zs : List Nat)
    (seen : List String) (store : List (Nat × List Item))
    (hv : zipIsValid valid_ranges z)
    (hr : (scrape_google_maps_listings (pages z) 100 seen).1 ≠ []) :
    (zipLoop valid_ranges pages (z :: zs) seen store).seen
      = (zipLoop valid_ranges pages zs
          (scrape_google_maps_listings (pages z) 100 seen).2
          (write_zip_file store z
            ((scrape_google_maps_listings (pages z) 100 seen).1.map
              (tagListing z))).1).seen := by
  rw [zipLoop_cons_write valid_ranges pages z zs seen store hv hr]

theorem zipLoop_cons_write_writes (valid_ranges : Option (List (Nat × Nat)))
    (pages : Nat → Option (List ListingDiv)) (z : Nat) (zs : List Nat)
    (seen : List String) (store : List (Nat × List Item))
    (hv : zipIsValid valid_ranges z)
    (hr : (scrape_google_maps_listings (pages z) 100 seen).1 ≠ []) :
    (zipLoop valid_ranges pages (z :: zs) seen store).writes
      = (if (write_zip_file store z
            ((scrape_google_maps_listings (pages z) 100 seen).1.map
              (tagListing z))).2 = [] then
          (zipLoop valid_ranges pages zs
            (scrape_google_maps_listings (pages z) 100 seen).2
            (write_zip_file store z
              ((scrape_google_maps_listings (pages z) 100 seen).1.map
                (tagListing z))).1).writes
        else
          (z, (write_zip_file store z
            ((scrape_google_maps_listings (pages z) 100 seen).1.map
              (tagListing z))).2) :: (zipLoop valid_ranges pages zs
            (scrape_google_maps_listings (pages z) 100 seen).2
            (write_zip_file store z
              ((scrape_google_maps_listings (pages z) 100 seen).1.map
                (tagListing z))).1).writes) := by
  rw [zipLoop_cons_write valid_ranges pages z zs seen store hv hr]

theorem zipLoop_cons_nil_seen (valid_ranges : Option (List (Nat × Nat)))
    (pages : Nat → Option (List ListingDiv)) (z : Nat) (zs : List Nat)
    (seen : List String) (store : List (Nat × List Item))
    (hv : zipIsValid valid_ranges z)
    (hr : (scrape_google_maps_listings (pages z) 100 seen).1 = []) :
    (zipLoop valid_ranges pages (z :: zs) seen store).seen
      = (zipLoop valid_ranges pages zs
          (scrape_google_maps_listings (pages z) 100 seen).2 store).seen := by
  rw [zipLoop_cons_nil valid_ranges pages z zs seen store hv hr]

theorem zipLoop_cons_nil_writes (valid_ranges : Option (List (Nat × Nat)))
    (pages : Nat → Option (List ListingDiv)) (z : Nat) (zs : List Nat)
    (seen : List String) (store : List (Nat × List Item))
    (hv : zipIsValid valid_ranges z)
    (hr : (scrape_google_maps_listings (pages z) 100 seen).1 = []) :
    (zipLoop valid_ranges pages (z :: zs) seen store).writes
      = (zipLoop valid_ranges pages zs
          (scrape_google_maps_listings (pages z) 100 seen).2 store).writes := by
  rw [zipLoop_cons_nil valid_ranges pages z zs seen store hv hr]

theorem emittedItems_cons (z : Nat) (v : List Item)
    (ws : List (Nat × List Item)) :
    emittedItems ((z, v) :: ws) = v ++ emittedItems ws := rfl

theorem zipLoop_writes_spec (valid_ranges : Option (List (Nat × Nat)))
    (pages : Nat → Option (List ListingDiv)) :
    ∀ (zs : List Nat) (seen : List String) (store : List (Nat × List Item)),
      (∀ s ∈ seen, s ∈ (zipLoop valid_ranges pages zs seen store).seen) ∧
      (∀ it ∈ emittedItems (zipLoop valid_ranges pages zs seen store).writes,
          it.businessName = some (itemName it) ∧ itemName it ≠ "N/A" ∧
          itemName it ∉ seen ∧
          itemName it ∈ (zipLoop valid_ranges pages zs seen store).seen) ∧
      List.Pairwise (fun a b => itemName a ≠ itemName b)
        (emittedItems (zipLoop valid_ranges pages zs seen store).writes) := by
  intro zs
  induction zs with
  | nil =>
    intro seen store
    exact ⟨fun s hs => hs, by simp [zipLoop, emittedItems],
      by simp [zipLoop, emittedItems]⟩
  | cons z zs ih =>
    intro seen store
    by_cases hv : zipIsValid valid_ranges z
    · obtain ⟨new, heq, hpw, hns, hok⟩ := scrape_spec (pages z) 100 seen
      have hS1 : (scrape_google_maps_listings (pages z) 100 seen).1 = new := by
        rw [heq]
      have hS2 : (scrape_google_maps_listings (pages z) 100 seen).2
          = (new.map itemName).reverse ++ seen := by rw [heq]
      by_cases hr : (scrape_google_maps_listings (pages z) 100 seen).1 = []
      · have hnew : new = [] := by rw [← hS1]; exact hr
        have hseen2 : (scrape_google_maps_listings (pages z) 100 seen).2 = seen := by
          rw [hS2, hnew]
          simp
        rw [zipLoop_cons_nil_seen valid_ranges pages z zs seen store hv hr,
          zipLoop_cons_nil_writes valid_ranges pages z zs seen store hv hr, hseen2]
        exact ih seen store
      · rw [zipLoop_cons_write_seen valid_ranges pages z zs seen store hv hr,
          zipLoop_cons_write_writes valid_ranges pages z zs seen store hv hr,
          hS1, hS2]
        obtain ⟨ihmono, ihem, ihpw⟩ :=
          ih ((new.map itemName).reverse ++ seen)
            (write_zip_file store z (new.map (tagListing z))).1
        have hemit :
            emittedItems
              (if (write_zip_file store z (new.map (tagListing z))).2 = [] then
                (zipLoop valid_ranges pages zs ((new.map itemName).reverse ++ seen)
                  (write_zip_file store z (new.map (tagListing z))).1).writes
              else
                (z, (write_zip_file store z (new.map (tagListing z))).2)
                  :: (zipLoop valid_ranges pages zs
                    ((new.map itemName).reverse ++ seen)
                    (write_zip_file store z (new.map (tagListing z))).1).writes)
            = (write_zip_file store z (new.map (tagListing z))).2
              ++ emittedItems (zipLoop valid_ranges pages zs
                ((new.map itemName).reverse ++ seen)
                (write_zip_file store z (new.map (tagListing z))).1).writes := by
          by_cases hw2 : (write_zip_file store z (new.map (tagListing z))).2 = []
          · simp [hw2]
          · simp [hw2, emittedItems_cons]
        rw [hemit]
        have hmemtag : ∀ it ∈ (write_zip_file store z (new.map (tagListing z))).2,
            ∃ l, l ∈ new ∧ tagListing z l = it := by
          intro it hit
          have h1 : it ∈ new.map (tagListing z) :=
            (write_zip_file_snd_sub store z _).subset hit
          simpa using List.mem_map.mp h1
        have hA : ∀ it ∈ (write_zip_file store z (new.map (tagListing z))).2,
            it.businessName = some (itemName it) ∧ itemName it ≠ "N/A" ∧
            itemName it ∉ seen ∧
            itemName it ∈ (new.map itemName).reverse ++ seen := by
          intro it hit
          obtain ⟨l, hl, htag⟩ := hmemtag it hit
          obtain ⟨hbnl, hnal⟩ := hok l hl
          have hnm : itemName it = itemName l := by rw [← htag]; rfl
          have hmemmap : itemName l ∈ new.map itemName :=
            List.mem_map_of_mem _ hl
          refine ⟨?_, ?_, ?_, ?_⟩
          · rw [hnm, ← htag]
            rw [tagListing_businessName]
            exact hbnl
          · rw [hnm]; exact hnal
          · rw [hnm]; exact hns _ hmemmap
          · rw [hnm]
            exact List.mem_append_left _ (by simpa using hmemmap)
        have hseensub : ∀ s ∈ seen, s ∈ (new.map itemName).reverse ++ seen :=
          fun s hs => List.mem_append_right _ hs
        refine ⟨?_, ?_, ?_⟩
        · intro s hs
          exact ihmono s (hseensub s hs)
        · intro it hit
          rcases List.mem_append.mp hit with h | h
          · obtain ⟨hb, hna, hnseen, hseen1⟩ := hA it h
            exact ⟨hb, hna, hnseen, ihmono _ hseen1⟩
          · obtain ⟨hb, hna, hnseen1, hrest⟩ := ihem it h
            exact ⟨hb, hna, fun hc => hnseen1 (hseensub _ hc), hrest⟩
        · rw [List.pairwise_append]
          refine ⟨?_, ihpw, ?_⟩
          · have htag : List.Pairwise (fun a b => itemName a ≠ itemName b)
                (new.map (tagListing z)) := by
              rw [List.pairwise_map]
              exact List.pairwise_map.mp hpw
            exact htag.sublist (write_zip_file_snd_sub store z _)
          · intro a ha b hb
            obtain ⟨_, _, _, ha1⟩ := hA a ha
            obtain ⟨_, _, hb1, _⟩ := ihem b hb
            exact fun hc => hb1 (hc ▸ ha1)
    · rw [zipLoop_cons_invalid valid_ranges pages z zs seen store hv]
      exact ih seen store

theorem run_finish_processed (bp : Bool) (tr : Option Nat) (a : Nat)
    (r : ZipLoopResult) : (run_finish bp tr a r).processed = r.processed := by
  unfold run_finish
  split <;> rfl

theorem run_finish_store (bp : Bool) (tr : Option Nat) (a : Nat)
    (r : ZipLoopResult) : (run_finish bp tr a r).store = r.store := by
  unfold run_finish
  split <;> rfl

theorem run_finish_writes (bp : Bool) (tr : Option Nat) (a : Nat)
    (r : ZipLoopResult) : (run_finish bp tr a r).writes = r.writes := by
  unfold run_finish
  split <;> rfl

theorem run_finish_exitOk (bp : Bool) (tr : Option Nat) (a : Nat)
    (r : ZipLoopResult) : (run_finish bp tr a r).exitOk = true := by
  unfold run_finish
  split <;> rfl

theorem run_finish_written_processed (bp : Bool) (tr : Option Nat) (a : Nat)
    (r : ZipLoopResult) (h : (run_finish bp tr a r).trackerWritten = true) :
    r.processed ≠ [] := by
  unfold run_finish at h
  split at h
  · rename_i hcond
    intro hcontra
    have : run_highest a r.processed = (a : Int) - 1 := by
      unfold run_highest
      rw [hcontra]
      rfl
    rw [this] at hcond
    omega
  · simp at h

theorem runScraper_noop (state_abbr : String) (s e : Nat) (bp : Bool)
    (tr : Option Nat) (ex : Option (List Nat))
    (pages : Nat → Option (List ListingDiv)) (store0 : List (Nat × List Item))
    (f : RunFault) (h : e < run_actual_start s bp tr) :
    runScraper state_abbr s e bp tr ex pages store0 f
      = ⟨true, [], tr, false, store0, []⟩ := by
  unfold runScraper
  rw [if_pos h]

theorem runScraper_beforeLoop (state_abbr : String) (s e : Nat) (bp : Bool)
    (tr : Option Nat) (ex : Option (List Nat))
    (pages : Nat → Option (List ListingDiv)) (store0 : List (Nat × List Item))
    (h : ¬ e < run_actual_start s bp tr) :
    runScraper state_abbr s e bp tr ex pages store0 RunFault.beforeLoop
      = ⟨false, [], tr, false, store0, []⟩ := by
  unfold runScraper
  rw [if_neg h]

theorem runScraper_ok (state_abbr : String) (s e : Nat) (bp : Bool)
    (tr : Option Nat) (ex : Option (List Nat))
    (pages : Nat → Option (List ListingDiv)) (store0 : List (Nat × List Item))
    (h : ¬ e < run_actual_start s bp tr) :
    runScraper state_abbr s e bp tr ex pages store0 RunFault.ok
      = run_finish bp tr (run_actual_start s bp tr)
          (zipLoop (get_valid_zip_ranges_for_state state_abbr) pages
            (run_iterable (run_actual_start s bp tr) e ex)
            (get_all_business_names_from_by_zip store0) store0) := by
  unfold runScraper
  rw [if_neg h]
  rfl

theorem runScraper_atIndex (state_abbr : String) (s e : Nat) (bp : Bool)
    (tr : Option Nat) (ex : Option (List Nat))
    (pages : Nat → Option (List ListingDiv)) (store0 : List (Nat × List Item))
    (i : Nat) (h : ¬ e < run_actual_start s bp tr) :
    runScraper state_abbr s e bp tr ex pages store0 (RunFault.atIndex i)
      = run_finish bp tr (run_actual_start s bp tr)
          (zipLoop (get_valid_zip_ranges_for_state state_abbr) pages
            ((run_iterable (run_actual_start s bp tr) e ex).take i)
            (get_all_business_names_from_by_zip store0) store0) := by
  unfold runScraper
  rw [if_neg h]
  rfl

/-- C4 counterexample: the claim fails for the watermark `0`. The tracker
guard `if last_scraped_zip and ...` treats the stored number `0` as falsy,
so for the request `[0, 2]` with stored watermark `W = 0` (so
`start ≤ W < end`) the run processes `[0, 1, 2]`, not `[W+1, end] = [1, 2]`. -/
theorem resume_watermark_zero_cex :
    ((0 : Nat) ≤ 0 ∧ (0 : Nat) < 2) ∧
      (runScraper "TX" 0 2 false (some 0) none (fun _ => none) []
        RunFault.ok).processed = [0, 1, 2] ∧
      ([0, 1, 2] : List Nat) ≠ [0 + 1, 2] := by
  refine ⟨⟨le_refl 0, by omega⟩, ?_, by decide⟩
  decide

/-- C4 (amended): with the tracker enabled and a stored nonzero watermark
`W` with `start ≤ W < end`, the effective start is `W + 1` and the
processed ZIPs are exactly `[W+1, end]` restricted to the state-valid
ranges, with a successful exit; and any run whose adjusted start exceeds
the end ZIP processes zero ZIPs and exits successfully. -/
theorem resume_effective_range (state_abbr : String)
    (start_zip end_zip W : Nat) (pages : Nat → Option (List ListingDiv))
    (store0 : List (Nat × List Item)) (hW1 : 1 ≤ W) (hsW : start_zip ≤ W)
    (hWe : W < end_zip) :
    (runScraper state_abbr start_zip end_zip false (some W) none pages store0
        RunFault.ok).processed
        = (List.range' (W + 1) (end_zip - W)).filter
            (fun z => zipIsValid (get_valid_zip_ranges_for_state state_abbr) z) ∧
      (runScraper state_abbr start_zip end_zip false (some W) none pages store0
        RunFault.ok).exitOk = true ∧
      ∀ (s' e' : Nat) (bp : Bool) (tr : Option Nat) (ex : Option (List Nat))
        (f : RunFault), e' < run_actual_start s' bp tr →
        (runScraper state_abbr s' e' bp tr ex pages store0 f).processed = [] ∧
        (runScraper state_abbr s' e' bp tr ex pages store0 f).exitOk = true := by
  have hAS : run_actual_start start_zip false (some W) = W + 1 := by
    unfold run_actual_start effective_start
    have hW0 : W ≠ 0 := by omega
    simp [hW0, hsW]
  have hnlt : ¬ end_zip < run_actual_start start_zip false (some W) := by
    rw [hAS]; omega
  refine ⟨?_, ?_, ?_⟩
  · rw [runScraper_ok _ _ _ _ _ _ _ _ hnlt, run_finish_processed,
      zipLoop_processed, hAS]
    unfold run_iterable
    have : end_zip + 1 - (W + 1) = end_zip - W := by omega
    rw [this]
  · rw [runScraper_ok _ _ _ _ _ _ _ _ hnlt]
    exact run_finish_exitOk _ _ _ _
  · intro s' e' bp tr ex f h
    rw [runScraper_noop _ _ _ _ _ _ _ _ f h]
    exact ⟨rfl, rfl⟩

/-- Witness for `resume_effective_range`: Scenario C of the spec — tracker
watermark 30302, request `[30301, 30305]`, effective range `[30303, 30305]`
(all GA-valid). -/
theorem resume_effective_range_witness :
    (1 ≤ 30302 ∧ 30301 ≤ 30302 ∧ 30302 < 30305) ∧
      (runScraper "GA" 30301 30305 false (some 30302) none (fun _ => none) []
        RunFault.ok).processed
        = (List.range' 30303 3).filter
            (fun z => zipIsValid (get_valid_zip_ranges_for_state "GA") z) := by
  refine ⟨⟨by omega, by omega, by omega⟩, ?_⟩
  exact (resume_effective_range "GA" 30301 30305 30302 (fun _ => none) []
    (by omega) (by omega) (by omega)).1

/-- C8: a worker-fatal uncaught exception (which in this code can only
strike before the scraping loop: loop exceptions are caught) ends the run
with a non-zero exit, leaves the tracker entry unchanged and unwritten, and
leaves the by-zip directory untouched; in every run the tracker is written
only when at least one ZIP was processed; and no run ever removes records
from a by-zip file — the prior content is always a prefix of the new one. -/
theorem worker_fatal_no_tracker_advance (state_abbr : String) (s e : Nat)
    (tr : Option Nat) (ex : Option (List Nat))
    (pages : Nat → Option (List ListingDiv))
    (store0 : List (Nat × List Item)) :
    (¬ e < run_actual_start s false tr →
      (runScraper state_abbr s e false tr ex pages store0
          RunFault.beforeLoop).exitOk = false ∧
        (runScraper state_abbr s e false tr ex pages store0
          RunFault.beforeLoop).trackerWritten = false ∧
        (runScraper state_abbr s e false tr ex pages store0
          RunFault.beforeLoop).tracker = tr ∧
        (runScraper state_abbr s e false tr ex pages store0
          RunFault.beforeLoop).store = store0) ∧
      (∀ (bp : Bool) (f : RunFault),
        (runScraper state_abbr s e bp tr ex pages store0 f).trackerWritten = true →
        (runScraper state_abbr s e bp tr ex pages store0 f).processed ≠ []) ∧
      (∀ (bp : Bool) (f : RunFault) (z' : Nat),
        ∃ t, storeGet (runScraper state_abbr s e bp tr ex pages store0 f).store z'
          = storeGet store0 z' ++ t) := by
  refine ⟨?_, ?_, ?_⟩
  · intro h
    rw [runScraper_beforeLoop _ _ _ _ _ _ _ _ h]
    exact ⟨rfl, rfl, rfl, rfl⟩
  · intro bp f hw
    by_cases h : e < run_actual_start s bp tr
    · rw [runScraper_noop _ _ _ _ _ _ _ _ f h] at hw
      simp at hw
    · match f with
      | RunFault.beforeLoop =>
        rw [runScraper_beforeLoop _ _ _ _ _ _ _ _ h] at hw
        simp at hw
      | RunFault.ok =>
        rw [runScraper_ok _ _ _ _ _ _ _ _ h] at hw ⊢
        rw [run_finish_processed]
        exact run_finish_written_processed _ _ _ _ hw
      | RunFault.atIndex i =>
        rw [runScraper_atIndex _ _ _ _ _ _ _ _ i h] at hw ⊢
        rw [run_finish_processed]
        exact run_finish_written_processed _ _ _ _ hw
  · intro bp f z'
    by_cases h : e < run_actual_start s bp tr
    · rw [runScraper_noop _ _ _ _ _ _ _ _ f h]
      exact ⟨[], by simp⟩
    · match f with
      | RunFault.beforeLoop =>
        rw [runScraper_beforeLoop _ _ _ _ _ _ _ _ h]
        exact ⟨[], by simp⟩
      | RunFault.ok =>
        rw [runScraper_ok _ _ _ _ _ _ _ _ h, run_finish_store]
        exact zipLoop_store_prefix _ _ _ _ _ z'
      | RunFault.atIndex i =>
        rw [runScraper_atIndex _ _ _ _ _ _ _ _ i h, run_finish_store]
        exact zipLoop_store_prefix _ _ _ _ _ z'

/-- Witness for `worker_fatal_no_tracker_advance` at a concrete run. -/
theorem worker_fatal_no_tracker_advance_witness :
    ¬ (2 : Nat) < run_actual_start 1 false (some 1) ∧
      (runScraper "TX" 1 2 false (some 1) none (fun _ => none) []
        RunFault.beforeLoop).exitOk = false ∧
      (runScraper "TX" 1 2 false (some 1) none (fun _ => none) []
        RunFault.beforeLoop).tracker = some 1 := by
  have h := worker_fatal_no_tracker_advance "TX" 1 2 (some 1) none
    (fun _ => none) []
  have hlt : ¬ (2 : Nat) < run_actual_start 1 false (some 1) := by decide
  obtain ⟨h1, _, _⟩ := h
  obtain ⟨ha, _, hc, _⟩ := h1 hlt
  exact ⟨hlt, ha, hc⟩

/-- C9: across one whole worker run (all per-ZIP outputs together), no two
records appended to by-zip files share a `BusinessName`, and no appended
record carries a name already seeded from the pre-existing by-zip output —
the suppression set is keyed by name alone, so a name emitted for one ZIP
is skipped for every later ZIP as well. -/
theorem run_dedup_by_name_only (state_abbr : String) (s e : Nat) (bp : Bool)
    (tr : Option Nat) (ex : Option (List Nat))
    (pages : Nat → Option (List ListingDiv))
    (store0 : List (Nat × List Item)) (f : RunFault) :
    List.Pairwise (fun a b => itemName a ≠ itemName b)
        (emittedItems (runScraper state_abbr s e bp tr ex pages store0 f).writes) ∧
      ∀ it ∈ emittedItems (runScraper state_abbr s e bp tr ex pages store0 f).writes,
        itemName it ∉ get_all_business_names_from_by_zip store0 := by
  by_cases h : e < run_actual_start s bp tr
  · rw [runScraper_noop _ _ _ _ _ _ _ _ f h]
    exact ⟨by simp [emittedItems], by simp [emittedItems]⟩
  · match f with
    | RunFault.beforeLoop =>
      rw [runScraper_beforeLoop _ _ _ _ _ _ _ _ h]
      exact ⟨by simp [emittedItems], by simp [emittedItems]⟩
    | RunFault.ok =>
      rw [runScraper_ok _ _ _ _ _ _ _ _ h, run_finish_writes]
      obtain ⟨_, hem, hpw⟩ := zipLoop_writes_spec
        (get_valid_zip_ranges_for_state state_abbr) pages
        (run_iterable (run_actual_start s bp tr) e ex)
        (get_all_business_names_from_by_zip store0) store0
      exact ⟨hpw, fun it hit => (hem it hit).2.2.1⟩
    | RunFault.atIndex i =>
      rw [runScraper_atIndex _ _ _ _ _ _ _ _ i h, run_finish_writes]
      obtain ⟨_, hem, hpw⟩ := zipLoop_writes_spec
        (get_valid_zip_ranges_for_state state_abbr) pages
        ((run_iterable (run_actual_start s bp tr) e ex).take i)
        (get_all_business_names_from_by_zip store0) store0
      exact ⟨hpw, fun it hit => (hem it hit).2.2.1⟩

/-- Witness for `run_dedup_by_name_only` at a concrete run: one page with
two same-named listings across two ZIPs emits the name once. -/
theorem run_dedup_by_name_only_witness :
    ∀ it ∈ emittedItems (runScraper "TX" 1 2 true none none
      (fun _ => some [{ nameText := some "Acme Roofing" }]) []
      RunFault.ok).writes,
      itemName it ∉ get_all_business_names_from_by_zip [] := by
  exact (run_dedup_by_name_only "TX" 1 2 true none none
    (fun _ => some [{ nameText := some "Acme Roofing" }]) [] RunFault.ok).2

/-- C10: the by-zip save step leaves the ZIP's file untouched when every
scraped listing's `BusinessName` already appears in it; it writes only when
at least one new unique record exists, and then the file becomes the
existing entries, in order, followed by exactly the new records; other
ZIPs' files are never touched. -/
theorem by_zip_write_frame (store : List (Nat × List Item)) (zip_code : Nat)
    (listings : List Item) :
    ((∀ it ∈ listings,
        it.businessName ∈ (storeGet store zip_code).map
          (fun it2 => it2.businessName)) →
      write_zip_file store zip_code listings = (store, [])) ∧
      (new_zip_items store zip_code listings = [] →
        write_zip_file store zip_code listings = (store, [])) ∧
      (new_zip_items store zip_code listings ≠ [] →
        (write_zip_file store zip_code listings).2
            = new_zip_items store zip_code listings ∧
          storeGet (write_zip_file store zip_code listings).1 zip_code
            = storeGet store zip_code ++ new_zip_items store zip_code listings ∧
          ∀ z', z' ≠ zip_code →
            storeGet (write_zip_file store zip_code listings).1 z'
              = storeGet store z') := by
  refine ⟨?_, ?_, ?_⟩
  · intro hall
    have hnil : new_zip_items store zip_code listings = [] := by
      unfold new_zip_items
      rw [List.filter_eq_nil]
      intro it hit
      simpa using hall it hit
    unfold write_zip_file
    rw [if_pos hnil]
  · intro hnil
    unfold write_zip_file
    rw [if_pos hnil]
  · intro hne
    unfold write_zip_file
    rw [if_neg hne]
    refine ⟨rfl, ?_, ?_⟩
    · exact storeGet_storeSet_self _ _ _
    · intro z' hz'
      exact storeGet_storeSet_other _ _ _ _ hz'

/-- Witness for `by_zip_write_frame`: a file holding `Acme` is untouched by
a second `Acme` listing, and a fresh name is appended after the existing
entry. -/
theorem by_zip_write_frame_witness :
    ((∀ it ∈ [({ businessName := some "Acme" } : Item)],
        it.businessName ∈ (storeGet [(30301, [{ businessName := some "Acme" }])]
          30301).map (fun it2 => it2.businessName)) ∧
      write_zip_file [(30301, [{ businessName := some "Acme" }])] 30301
          [{ businessName := some "Acme" }]
        = ([(30301, [{ businessName := some "Acme" }])], [])) ∧
      (new_zip_items [(30301, [{ businessName := some "Acme" }])] 30301
          [{ businessName := some "Bolt" }] ≠ [] ∧
        storeGet (write_zip_file [(30301, [{ businessName := some "Acme" }])]
            30301 [{ businessName := some "Bolt" }]).1 30301
          = [{ businessName := some "Acme" }, { businessName := some "Bolt" }]) := by
  constructor
  · refine ⟨by decide, ?_⟩
    exact (by_zip_write_frame [(30301, [{ businessName := some "Acme" }])] 30301
      [{ businessName := some "Acme" }]).1 (by decide)
  · refine ⟨by decide, ?_⟩
    have h := ((by_zip_write_frame [(30301, [{ businessName := some "Acme" }])]
      30301 [{ businessName := some "Bolt" }]).2.2 (by decide)).2.1
    rw [h]
    decide

theorem mem_insertByName (x y : String × List Item)
    (l : List (String × List Item)) (h : y ∈ insertByName x l) :
    y = x ∨ y ∈ l := by
  induction l with
  | nil => simpa [insertByName] using h
  | cons z zs ih =>
    unfold insertByName at h
    split at h
    · rcases List.mem_cons.mp h with h1 | h1
      · exact Or.inr (List.mem_cons.mpr (Or.inl h1))
      · rcases ih h1 with h2 | h2
        · exact Or.inl h2
        · exact Or.inr (List.mem_cons.mpr (Or.inr h2))
    · rcases List.mem_cons.mp h with h1 | h1
      · exact Or.inl h1
      · exact Or.inr h1

theorem mem_foldl_insertByName (l : List (String × List Item)) :
    ∀ (acc : List (String × List Item)) (y : String × List Item),
      y ∈ l.foldl (fun acc x => insertByName x acc) acc → y ∈ acc ∨ y ∈ l := by
  induction l with
  | nil => intro acc y h; exact Or.inl h
  | cons x xs ih =>
    intro acc y h
    rcases ih (insertByName x acc) y h with h1 | h1
    · rcases mem_insertByName x y acc h1 with h2 | h2
      · exact Or.inr (List.mem_cons.mpr (Or.inl h2))
      · exact Or.inl h2
    · exact Or.inr (List.mem_cons.mpr (Or.inr h1))

theorem mem_sortedDirListing (files : List (String × List Item))
    (y : String × List Item) (h : y ∈ sortedDirListing files) : y ∈ files := by
  rcases mem_foldl_insertByName files [] y h with h1 | h1
  · simp at h1
  · exact h1

theorem merge_member (existing : List Item) (files : List (String × List Item))
    (it : Item) (h : it ∈ merge_google_by_zip existing files) :
    it ∈ existing ∨ ∃ p ∈ files, it ∈ p.2 := by
  have h1 : merge_google_by_zip existing files
      = firstSeen (encounterSeq existing files) :=
    merge_google_by_zip_eq_firstSeen existing files
  have hsub : it ∈ encounterSeq existing files :=
    (firstSeen_sublist _).subset (h1 ▸ h)
  unfold encounterSeq at hsub
  rcases List.mem_append.mp hsub with h1 | h1
  · exact Or.inl h1
  · unfold json_entries at h1
    obtain ⟨l, hl, hitl⟩ := List.mem_flatten.mp h1
    obtain ⟨p, hp, hpl⟩ := List.mem_map.mp hl
    have hp2 : p ∈ sortedDirListing files := List.mem_of_mem_filter hp
    exact Or.inr ⟨p, mem_sortedDirListing files p hp2, hpl ▸ hitl⟩

/-- C5: the `"N/A"` business-name sentinel is never persisted — the scrape
loop never emits a record whose `BusinessName` is `"N/A"`, no worker run
ever appends such a record to a by-zip file, a merge whose inputs are free
of the sentinel produces a dataset free of it, and the Stage-1 filter
output never contains it. -/
theorem sentinel_never_persisted :
    (∀ (page : Option (List ListingDiv)) (maxL : Nat) (seen : List String),
        ∀ it ∈ (scrape_google_maps_listings page maxL seen).1,
          it.businessName ≠ some "N/A") ∧
      (∀ (state_abbr : String) (s e : Nat) (bp : Bool) (tr : Option Nat)
        (ex : Option (List Nat)) (pages : Nat → Option (List ListingDiv))
        (store0 : List (Nat × List Item)) (f : RunFault),
        ∀ it ∈ emittedItems
          (runScraper state_abbr s e bp tr ex pages store0 f).writes,
          it.businessName ≠ some "N/A") ∧
      (∀ (existing : List Item) (files : List (String × List Item)),
        (∀ it ∈ existing, it.businessName ≠ some "N/A") →
        (∀ p ∈ files, ∀ it ∈ p.2, it.businessName ≠ some "N/A") →
        ∀ it ∈ merge_google_by_zip existing files,
          it.businessName ≠ some "N/A") ∧
      (∀ data : List Item, ∀ it ∈ filter_google_search_data data,
        it.businessName ≠ some "N/A") := by
  have hscrape : ∀ (page : Option (List ListingDiv)) (maxL : Nat)
      (seen : List String), ∀ it ∈ (scrape_google_maps_listings page maxL seen).1,
      it.businessName ≠ some "N/A" := by
    intro page maxL seen it hit
    obtain ⟨new, heq, _, _, hok⟩ := scrape_spec page maxL seen
    rw [heq] at hit
    obtain ⟨hbn, hna⟩ := hok it hit
    rw [hbn]
    exact fun hc => hna (Option.some.inj hc)
  refine ⟨hscrape, ?_, ?_, ?_⟩
  · intro state_abbr s e bp tr ex pages store0 f it hit
    by_cases h : e < run_actual_start s bp tr
    · rw [runScraper_noop _ _ _ _ _ _ _ _ f h] at hit
      simp [emittedItems] at hit
    · match f with
      | RunFault.beforeLoop =>
        rw [runScraper_beforeLoop _ _ _ _ _ _ _ _ h] at hit
        simp [emittedItems] at hit
      | RunFault.ok =>
        rw [runScraper_ok _ _ _ _ _ _ _ _ h, run_finish_writes] at hit
        obtain ⟨_, hem, _⟩ := zipLoop_writes_spec
          (get_valid_zip_ranges_for_state state_abbr) pages
          (run_iterable (run_actual_start s bp tr) e ex)
          (get_all_business_names_from_by_zip store0) store0
        obtain ⟨hbn, hna, _, _⟩ := hem it hit
        rw [hbn]
        exact fun hc => hna (Option.some.inj hc)
      | RunFault.atIndex i =>
        rw [runScraper_atIndex _ _ _ _ _ _ _ _ i h, run_finish_writes] at hit
        obtain ⟨_, hem, _⟩ := zipLoop_writes_spec
          (get_valid_zip_ranges_for_state state_abbr) pages
          ((run_iterable (run_actual_start s bp tr) e ex).take i)
          (get_all_business_names_from_by_zip store0) store0
        obtain ⟨hbn, hna, _, _⟩ := hem it hit
        rw [hbn]
        exact fun hc => hna (Option.some.inj hc)
  · intro existing files hex hfs it hit
    rcases merge_member existing files it hit with h | ⟨p, hp, hitp⟩
    · exact hex it h
    · exact hfs p hp it hitp
  · intro data it hit
    have := List.of_mem_filter hit
    simp only [Bool.and_eq_true, decide_eq_true_eq] at this
    exact this.1

/-- Witness for `sentinel_never_persisted`: its hypotheses discharged on a
concrete merge input. -/
theorem sentinel_never_persisted_witness :
    ∀ it ∈ merge_google_by_zip [{ businessName := some "Acme" }]
      [("30301.json", [{ businessName := some "Bolt" }])],
      it.businessName ≠ some "N/A" := by
  exact sentinel_never_persisted.2.2.1 [{ businessName := some "Acme" }]
    [("30301.json", [{ businessName := some "Bolt" }])]
    (by decide) (by decide)

theorem urlSeedLoop_mem (l : List BbbEntry) :
    ∀ (st : List String × List BbbEntry) (y : BbbEntry),
      y ∈ (urlSeedLoop st l).2 → y ∈ st.2 ∨ y ∈ l := by
  induction l with
  | nil => intro st y h; exact Or.inl h
  | cons e rest ih =>
    intro st y h
    match st with
    | (seen_urls, merged) =>
      unfold urlSeedLoop at h
      split at h
      · rcases ih _ y h with h1 | h1
        · rcases List.mem_append.mp h1 with h2 | h2
          · exact Or.inl h2
          · exact Or.inr (List.mem_cons.mpr (Or.inl (by simpa using h2)))
        · exact Or.inr (List.mem_cons.mpr (Or.inr h1))
      · rcases ih _ y h with h1 | h1
        · exact Or.inl h1
        · exact Or.inr (List.mem_cons.mpr (Or.inr h1))

theorem filter_for_final_leads_mem (data existing : List BbbEntry)
    (y : BbbEntry) (h : y ∈ filter_for_final_leads data existing) :
    y ∈ existing ∨ y ∈ filtered_new data := by
  unfold filter_for_final_leads at h
  rcases urlSeedLoop_mem _ _ y h with h1 | h1
  · rcases urlSeedLoop_mem _ _ y h1 with h2 | h2
    · simp at h2
    · exact Or.inl h2
  · exact Or.inr h1

theorem mem_filtered_new_url (data : List BbbEntry) (y : BbbEntry)
    (h : y ∈ filtered_new data) :
    truthyOpt y.bbbUrl = true ∧ y.bbbUrl ≠ some "N/A" := by
  have := List.of_mem_filter h
  simpa using this

/-- C6: a Stage-2 lookup that finds only sponsored cards (zero non-ad
cards) makes the worker emit the candidate with `BBB_url = "N/A"`; a record
with `BBB_url = "N/A"` can reach the final lead list only by having been
seeded from a prior final list, never from the new data; and when at least
one non-ad card exists, exactly the first non-ad card's fields are
extracted. -/
theorem sponsored_only_unmatched :
    (∀ (entry : BbbEntry) (page_loaded : Bool) (cards : List BBBCard)
        (out : BbbEntry),
      cards.filter isNonAdCard = [] →
      bbb_worker_entry entry false page_loaded cards = some out →
      out.bbbUrl = some "N/A") ∧
      (∀ (r : BbbEntry) (data existing : List BbbEntry),
        r.bbbUrl = some "N/A" → r ∈ filter_for_final_leads data existing →
        r ∈ existing) ∧
      (∀ (cards : List BBBCard) (c : BBBCard) (rest : List BBBCard)
        (n u : String),
        cards.filter isNonAdCard = c :: rest →
        c.nameAndUrl = some (n, u) →
        scrape_bbb_listings true cards
          = { bus := [n], url := [u], phone := [c.phoneText.getD "N/A"],
              addr := [c.addressText.getD "N/A"] }) := by
  refine ⟨?_, ?_, ?_⟩
  · intro entry page_loaded cards out hads h
    have hscrape : scrape_bbb_listings page_loaded cards = {} := by
      cases page_loaded <;> simp [scrape_bbb_listings, hads]
    have hres : bbb_worker_results false page_loaded cards = {} := by
      simp [bbb_worker_results, hscrape]
    unfold bbb_worker_entry at h
    rw [hres] at h
    split at h
    · simp at h
    · rw [if_neg (by simp : ¬ (({} : Collected).bus ≠ []))] at h
      rw [← Option.some.inj h]
  · intro r data existing hurl hmem
    rcases filter_for_final_leads_mem data existing r hmem with h | h
    · exact h
    · exact absurd hurl (mem_filtered_new_url data r h).2
  · intro cards c rest n u hfil hnu
    unfold scrape_bbb_listings
    rw [if_pos rfl, hfil]
    simp [hnu]

/-- Witness for `sponsored_only_unmatched`: one all-sponsored lookup and
one organic lookup, at concrete inputs. -/
theorem sponsored_only_unmatched_witness :
    ({ businessName := some "Acme", location := some "30301",
        bbbBus := some "N/A", bbbUrl := some "N/A", bbbPhone := some "N/A",
        bbbAddr := some "N/A" } : BbbEntry).bbbUrl = some "N/A" ∧
      scrape_bbb_listings true
          [{ adSlotClass := true }, { nameAndUrl := some ("Acme", "bbb.org/acme") }]
        = { bus := ["Acme"], url := ["bbb.org/acme"], phone := ["N/A"],
            addr := ["N/A"] } := by
  constructor
  · exact sponsored_only_unmatched.1
      { businessName := some "Acme", location := some "30301" } true
      [{ adSlotClass := true }]
      { businessName := some "Acme", location := some "30301",
        bbbBus := some "N/A", bbbUrl := some "N/A", bbbPhone := some "N/A",
        bbbAddr := some "N/A" }
      (by decide) (by decide)
  · exact sponsored_only_unmatched.2.2
      [{ adSlotClass := true }, { nameAndUrl := some ("Acme", "bbb.org/acme") }]
      { nameAndUrl := some ("Acme", "bbb.org/acme") } [] "Acme" "bbb.org/acme"
      (by decide) (by decide)

/-- C7 counterexample: an entry with the sentinel `BBB_url = "N/A"` seeded
from a prior final list IS kept by `filter_for_final_leads` — the seed loop
only tests truthiness and the seen-set, not the sentinel — refuting the
claim that no `"N/A"` entry is ever present in the written final list. -/
theorem final_leads_sentinel_cex :
    filter_for_final_leads [] [{ bbbUrl := some "N/A" }]
        = [{ bbbUrl := some "N/A" }] ∧
      ({ bbbUrl := some "N/A" } : BbbEntry).bbbUrl = some "N/A" := by
  exact ⟨by decide, rfl⟩

theorem urlSeedLoop_invariant (l : List BbbEntry) :
    ∀ (seen_urls : List String) (merged : List BbbEntry),
      (∀ e ∈ merged, truthyOpt e.bbbUrl = true ∧ e.bbbUrl.getD "" ∈ seen_urls) →
      List.Pairwise (fun a b => a.bbbUrl.getD "" ≠ b.bbbUrl.getD "") merged →
      (∀ e ∈ (urlSeedLoop (seen_urls, merged) l).2,
          truthyOpt e.bbbUrl = true ∧
            e.bbbUrl.getD "" ∈ (urlSeedLoop (seen_urls, merged) l).1) ∧
        List.Pairwise (fun a b => a.bbbUrl.getD "" ≠ b.bbbUrl.getD "")
          (urlSeedLoop (seen_urls, merged) l).2 := by
  induction l with
  | nil => intro seen_urls merged h1 h2; exact ⟨h1, h2⟩
  | cons e rest ih =>
    intro seen_urls merged h1 h2
    unfold urlSeedLoop
    split
    · rename_i hcond
      rw [Bool.and_eq_true, decide_eq_true_eq] at hcond
      apply ih
      · intro x hx
        rcases List.mem_append.mp hx with hx1 | hx1
        · exact ⟨(h1 x hx1).1, List.mem_cons_of_mem _ (h1 x hx1).2⟩
        · have hxe : x = e := by simpa using hx1
          subst hxe
          exact ⟨hcond.1, List.mem_cons_self _ _⟩
      · rw [List.pairwise_append]
        refine ⟨h2, by simp, ?_⟩
        intro a ha b hb
        have hbe : b = e := by simpa using hb
        subst hbe
        exact fun hc => hcond.2 (hc ▸ (h1 a ha).2)
    · exact ih seen_urls merged h1 h2

/-- C7 (amended): every pair of entries in the written final lead list has
distinct `BBB_url` values and every entry's `BBB_url` is truthy; no entry
with the sentinel `BBB_url = "N/A"` enters from the new input — but a
seeded prior-final-list entry with the sentinel is retained (see the
counterexample), so a sentinel entry can be present exactly when the prior
final list already held it. -/
theorem final_leads_dedup_by_url (data existing_final : List BbbEntry) :
    List.Pairwise (fun a b => a.bbbUrl ≠ b.bbbUrl)
        (filter_for_final_leads data existing_final) ∧
      (∀ entry ∈ filter_for_final_leads data existing_final,
        truthyOpt entry.bbbUrl = true) ∧
      (∀ entry ∈ filter_for_final_leads data existing_final,
        entry.bbbUrl = some "N/A" → entry ∈ existing_final) := by
  have hseed := urlSeedLoop_invariant existing_final [] []
    (by simp) (by simp)
  have hall := urlSeedLoop_invariant (filtered_new data)
    (urlSeedLoop ([], []) existing_final).1
    (urlSeedLoop ([], []) existing_final).2
    hseed.1 hseed.2
  refine ⟨?_, ?_, ?_⟩
  · apply List.Pairwise.imp ?_ hall.2
    intro a b hne hc
    exact hne (by rw [hc])
  · intro entry hmem
    exact (hall.1 entry hmem).1
  · intro entry hmem hurl
    rcases filter_for_final_leads_mem data existing_final entry hmem with h | h
    · exact h
    · exact absurd hurl (mem_filtered_new_url data entry h).2

/-- Witness for `final_leads_dedup_by_url`: pairwise-distinct URLs on a
concrete merge of one seeded and two new entries (one a duplicate URL). -/
theorem final_leads_dedup_by_url_witness :
    List.Pairwise (fun a b => a.bbbUrl ≠ b.bbbUrl)
        (filter_for_final_leads
          [{ bbbUrl := some "bbb.org/acme" }, { bbbUrl := some "bbb.org/bolt" }]
          [{ bbbUrl := some "bbb.org/acme" }]) ∧
      ∀ entry ∈ filter_for_final_leads
          [{ bbbUrl := some "bbb.org/acme" }, { bbbUrl := some "bbb.org/bolt" }]
          [{ bbbUrl := some "bbb.org/acme" }],
        truthyOpt entry.bbbUrl = true := by
  exact ⟨(final_leads_dedup_by_url _ _).1, (final_leads_dedup_by_url _ _).2.1⟩
